import Mathlib

/-
  Verification of the dependency-resolution and lock-generation engine of
  the pyckage package manager (src/pyckage/conflicts.py and
  src/pyckage/npm_utils.py), as a shallow embedding in Lean.

  Python dictionaries are modelled as insertion-ordered association lists,
  Python exceptions as an explicit error type threaded through Except, and
  the network registry as a finite association list from package names to
  packument data.  The recursion in add_to_dependency_tree and
  add_package_to_lock is expressed with an explicit fuel parameter; a
  theorem below shows the fuel chosen for build_dependency_tree is never
  exhausted, which is the termination guarantee of the visited set.
-/

namespace Pyckage

/-- Python exception values that the embedded code can raise. -/
inductive PyErr where
  | keyError : String → PyErr
  | valueError : String → PyErr
  | indexError : PyErr
  | httpStatusError : String → PyErr
  | recursionError : PyErr
deriving Repr, DecidableEq

/-- Python dict lookup: first binding of the key, if any. -/
def dictGet {α : Type} (d : List (String × α)) (k : String) : Option α :=
  match d with
  | [] => none
  | (k', v) :: rest => if k' = k then some v else dictGet rest k

/-- Python dict assignment: update the value in place if the key exists,
otherwise append the new binding at the end (insertion order). -/
def dictInsert {α : Type} (d : List (String × α)) (k : String) (v : α) :
    List (String × α) :=
  match d with
  | [] => [(k, v)]
  | (k', v') :: rest =>
    if k' = k then (k', v) :: rest else (k', v') :: dictInsert rest k v

/-- Lexicographic strict order on character lists by code point, the
order Python uses to compare strings. -/
def listCharLt : List Char → List Char → Bool
  | [], [] => false
  | [], _ :: _ => true
  | _ :: _, [] => false
  | a :: as, b :: bs =>
    if a < b then true else if b < a then false else listCharLt as bs

/-- Python string comparison, lexicographic by code point. -/
def pyStrLt (a b : String) : Bool :=
  listCharLt a.data b.data

/-- Python str.split with a one-character separator, over the character
list of the string: no separators are merged and the empty string splits
to one empty piece. -/
def splitOnChar (sep : Char) : List Char → List (List Char)
  | [] => [[]]
  | c :: rest =>
    let r := splitOnChar sep rest
    if c = sep then [] :: r
    else
      match r with
      | [] => [[c]]
      | h :: t => (c :: h) :: t

/-- Python str.split with a one-character separator, on strings. -/
def pySplit (s : String) (sep : Char) : List String :=
  (splitOnChar sep s.data).map String.mk

/-- The numeric value of a decimal digit character, if it is one. -/
def charDigit (c : Char) : Option Nat :=
  if 48 ≤ c.toNat ∧ c.toNat ≤ 57 then some (c.toNat - 48) else none

/-- Python int() on a plain digit string: the value when the string is
nonempty and all digits, otherwise failure. -/
def pyParseNat (s : String) : Option Nat :=
  match s.data with
  | [] => none
  | l => l.foldl (fun acc c =>
      match acc, charDigit c with
      | some n, some d => some (n * 10 + d)
      | _, _ => none) (some 0)

/-- Whether the first character of a string is the given one. -/
def headIs (s : String) (c : Char) : Bool :=
  match s.data with
  | [] => false
  | x :: _ => x = c

/-- A whitespace character in the sense of Python str.strip. -/
def isPySpace (c : Char) : Bool :=
  c = ' ' ∨ c = '\t' ∨ c = '\n' ∨ c = '\r'

/-- Python str.strip: whitespace removed from both ends. -/
def pyStrip (s : String) : String :=
  String.mk
    (((s.data.dropWhile isPySpace).reverse.dropWhile isPySpace).reverse)

/-- Python sep.join over a list of strings. -/
def joinWith (sep : String) : List String → String
  | [] => ""
  | [x] => x
  | x :: xs => x ++ sep ++ joinWith sep xs

/-- Python max() over a list of strings, lexicographic by code point;
raises ValueError on an empty sequence. -/
def pyMax (l : List String) : Except PyErr String :=
  match l with
  | [] => .error (.valueError "max() arg is an empty sequence")
  | x :: xs => .ok (xs.foldl (fun a b => if pyStrLt a b then b else a) x)

/-- Python min() over a list of strings, lexicographic by code point;
raises ValueError on an empty sequence. -/
def pyMin (l : List String) : Except PyErr String :=
  match l with
  | [] => .error (.valueError "min() arg is an empty sequence")
  | x :: xs => .ok (xs.foldl (fun a b => if pyStrLt b a then b else a) x)

/-- Python truthiness of an optional string: None and the empty string are
falsy. -/
def pyTruthyOpt (o : Option String) : Bool :=
  match o with
  | none => false
  | some s => s ≠ ""

/-! ## The external semantic-version matcher

conflicts.py and npm_utils.py import max_satisfying from the external
nodesemver library, which is not part of this repository.  The following
definitions are modelled from the spec: a version is a dotted numeric
triple, a range is an exact version, a caret range or a tilde range, and
maxSatisfying returns the greatest version in the list satisfying the
range, or none.  An unparsable range raises ValueError. -/

/-- Modelled from the spec: a concrete version is a dotted numeric triple. -/
def parseVersion (s : String) : Option (Nat × Nat × Nat) :=
  match pySplit s '.' with
  | [a, b, c] =>
    match pyParseNat a, pyParseNat b, pyParseNat c with
    | some x, some y, some z => some (x, y, z)
    | _, _, _ => none
  | _ => none

/-- Strict order on version triples (major, minor, patch). -/
def versionLtB : Nat × Nat × Nat → Nat × Nat × Nat → Bool
  | (a, b, c), (d, e, f) =>
    decide (a < d) ||
      (decide (a = d) && (decide (b < e) || (decide (b = e) && decide (c < f))))

/-- Reflexive order on version triples. -/
def versionLeB (v w : Nat × Nat × Nat) : Bool :=
  versionLtB v w || decide (v = w)

/-- Modelled from the spec: range expressions recognised by the matcher. -/
inductive SemverRange where
  | exact : Nat × Nat × Nat → SemverRange
  | caret : Nat × Nat × Nat → SemverRange
  | tilde : Nat × Nat × Nat → SemverRange
deriving Repr, DecidableEq

/-- The string with its first character removed. -/
def strTail (s : String) : String :=
  String.mk (s.data.drop 1)

/-- Modelled from the spec: parse an exact, caret or tilde range. -/
def parseSemverRange (s : String) : Option SemverRange :=
  if headIs s '^' then (parseVersion (strTail s)).map SemverRange.caret
  else if headIs s '~' then (parseVersion (strTail s)).map SemverRange.tilde
  else (parseVersion s).map SemverRange.exact

/-- Exclusive upper bound of a caret range: next major, or next minor or
patch for zero-led versions. -/
def caretUpper : Nat × Nat × Nat → Nat × Nat × Nat
  | (0, 0, p) => (0, 0, p + 1)
  | (0, m + 1, _) => (0, m + 2, 0)
  | (mj + 1, _, _) => (mj + 2, 0, 0)

/-- Whether a version triple satisfies a range. -/
def rangeSatisfied (r : SemverRange) (v : Nat × Nat × Nat) : Bool :=
  match r with
  | .exact w => decide (v = w)
  | .caret w => versionLeB w v && versionLtB v (caretUpper w)
  | .tilde w => versionLeB w v && versionLtB v (w.1, w.2.1 + 1, 0)

/-- The greatest element of a list in version order (all candidates are
assumed parsable; unparsable entries are kept only as a fallback). -/
def semverMaxOf (l : List String) : Option String :=
  l.foldl (fun best v =>
    match best with
    | none => some v
    | some b =>
      match parseVersion b, parseVersion v with
      | some tb, some tv => if versionLtB tb tv then some v else some b
      | some _, none => some b
      | none, _ => some v) none

/-- Modelled from the spec: nodesemver max_satisfying.  Raises ValueError
on an unparsable range, otherwise returns the greatest satisfying version
in the list, or none. -/
def max_satisfying (versions : List String) (range_ : String) :
    Except PyErr (Option String) :=
  match parseSemverRange range_ with
  | none => .error (.valueError "invalid range")
  | some r =>
    .ok (semverMaxOf (versions.filter (fun v =>
      match parseVersion v with
      | some t => rangeSatisfied r t
      | none => false)))

/-! ## npm_utils.py -/

/-- npm_utils.parse_version_range: the literals *, x and latest collapse
to the marker latest; everything else is passed through. -/
def parse_version_range (range_ : String) : String :=
  if range_ = "*" ∨ range_ = "x" ∨ range_ = "latest" then "latest" else range_

/-- npm_utils.find_max_satisfying: the latest marker picks Python max of
the version list; otherwise the range is handed to the matcher, with
ValueError from the matcher converted to None. -/
def find_max_satisfying (versions : List String) (range_ : String) :
    Except PyErr (Option String) :=
  let parsed_range := parse_version_range range_
  if parsed_range = "latest" then
    match pyMax versions with
    | .error e => .error e
    | .ok m => .ok (some m)
  else
    match max_satisfying versions parsed_range with
    | .error (.valueError _) => .ok none
    | .error e => .error e
    | .ok r => .ok r

/-- The metadata object stored for one concrete version of a package.
The versionsCatalog field models the optional "versions" key of the JSON
object, which find_compatible_version reads (a missing key raises
KeyError there). -/
structure VersionInfo where
  version : String
  dependencies : List (String × String)
  distTarball : String
  distIntegrity : String
  versionsCatalog : Option (List String)
deriving Repr, DecidableEq

/-- The registry document for one package name: the optional dist-tags
latest entry and the dict of version string to version metadata. -/
structure Packument where
  distTagsLatest : Option String
  versions : List (String × VersionInfo)
deriving Repr, DecidableEq

/-- The npm registry, an association from package name to packument.  A
name absent from the registry makes the HTTP fetch raise. -/
abbrev Registry := List (String × Packument)

/-- Python lstrip over the caret and tilde characters. -/
def lstripCaretTilde (s : String) : String :=
  String.mk (s.data.dropWhile (fun c => c = '^' ∨ c = '~'))

/-- The first step of get_package_info: the latest marker is replaced by
the dist-tags entry of the packument (KeyError when that entry is
missing); any other requested version is passed through. -/
def latest_or_given (package_data : Packument) (version : String) :
    Except PyErr String :=
  if version = "latest" then
    match package_data.distTagsLatest with
    | none => .error (.keyError "latest")
    | some v => .ok v
  else .ok version

/-- The fallback of get_package_info when no version matches the range:
the range stripped of leading carets and tildes if that is a known
version key, otherwise the dist-tags latest entry (KeyError when that is
missing; the Python code also prints a notice here). -/
def fallback_version (package_data : Packument) (version1 : String) :
    Except PyErr String :=
  let mv := if headIs version1 '^' || headIs version1 '~' then
      lstripCaretTilde version1
    else version1
  if (dictGet package_data.versions mv).isSome then .ok mv
  else
    match package_data.distTagsLatest with
    | none => .error (.keyError "latest")
    | some v => .ok v

/-- The remaining steps of get_package_info once the packument is fetched
and the latest marker resolved: match the requested range against the
version keys, fall back when nothing matches (Python truthiness: None
and the empty string fail the check), and return the metadata stored
under the chosen key (KeyError when absent). -/
def pick_matching_version (package_data : Packument) (version1 : String) :
    Except PyErr VersionInfo :=
  match find_max_satisfying (package_data.versions.map Prod.fst) version1 with
  | .error e => .error e
  | .ok matching0 =>
    match (if pyTruthyOpt matching0 then Except.ok (matching0.getD "")
           else fallback_version package_data version1 :
             Except PyErr String) with
    | .error e => .error e
    | .ok matching_version =>
      match dictGet package_data.versions matching_version with
      | none => .error (.keyError matching_version)
      | some vi => .ok vi

/-- npm_utils.get_package_info: fetch the packument (HTTP error when the
name is unknown), replace the latest marker by the dist-tags entry, then
pick the best matching concrete version and return its metadata.  In
Python the version argument defaults to "latest"; call sites spell the
default explicitly here. -/
def get_package_info (reg : Registry) (package_name : String)
    (version : String) : Except PyErr VersionInfo :=
  match dictGet reg package_name with
  | none => .error (.httpStatusError package_name)
  | some package_data =>
    match latest_or_given package_data version with
    | .error e => .error e
    | .ok version1 => pick_matching_version package_data version1

/-! ## conflicts.py: dependency tree building -/

/-- The state threaded through the tree traversal: the dependency tree
(name to list of specifiers), the visited set (kept as an ordered list)
and, for the bookkeeping of the proofs, the ordered log of names whose
metadata has been fetched. -/
structure BuildSt where
  tree : List (String × List String)
  visited : List String
  fetchLog : List String
deriving Repr, DecidableEq

/-- One pending activation of the traversal: either a single
add_to_dependency_tree call, or the loop over a dependencies dict. -/
inductive BuildCall where
  | one : String → String → BuildCall
  | deps : List (String × String) → BuildCall
deriving Repr, DecidableEq

/-- The state updates a first visit of a package performs, in source
order: the name joins the visited set, the tree entry is created when
missing, the specifier is appended when not already recorded, and the
upcoming metadata fetch is logged. -/
def recordVisit (st : BuildSt) (package version_range : String) : BuildSt :=
  let tree1 := if (dictGet st.tree package).isSome then st.tree
    else dictInsert st.tree package []
  let cur := (dictGet tree1 package).getD []
  let tree2 := if version_range ∈ cur then tree1
    else dictInsert tree1 package (cur ++ [version_range])
  ⟨tree2, st.visited ++ [package], st.fetchLog ++ [package]⟩

/-- conflicts.add_to_dependency_tree together with its loop over nested
dependencies, with explicit fuel.  The body of the one case follows the
Python source line by line: the visited check returns first, then the
state updates of recordVisit are applied, then the metadata is fetched
(a failure propagates) and the nested dependencies are processed in
order.  Exhausted fuel models Python's RecursionError. -/
def buildRun (reg : Registry) : Nat → BuildCall → BuildSt → Except PyErr BuildSt
  | 0, _, _ => .error .recursionError
  | _ + 1, .deps [], st => .ok st
  | fuel + 1, .deps ((p, vr) :: rest), st =>
    match buildRun reg fuel (.one p vr) st with
    | .ok st' => buildRun reg fuel (.deps rest) st'
    | .error e => .error e
  | fuel + 1, .one package version_range, st =>
    if package ∈ st.visited then .ok st
    else
      match get_package_info reg package version_range with
      | .error e => .error e
      | .ok info =>
        buildRun reg fuel (.deps info.dependencies)
          (recordVisit st package version_range)

/-- Total number of dependency edges declared across every version of a
packument; an upper bound for the edges one fetch of it can yield. -/
def sumDeps (pk : Packument) : Nat :=
  (pk.versions.map (fun e => e.2.dependencies.length)).sum

/-- Fuel potential: cost budget of the registry names not yet visited. -/
def regPotential (reg : Registry) (visited : List String) : Nat :=
  (reg.map (fun e => if e.1 ∈ visited then 0 else sumDeps e.2 + 2)).sum

/-- Fuel with which build_dependency_tree runs; shown sufficient below. -/
def buildFuel (reg : Registry) (dependencies : List (String × String)) : Nat :=
  dependencies.length + 1 + regPotential reg []

/-- conflicts.build_dependency_tree: run the traversal over every
manifest entry with one shared visited set, starting from empty state. -/
def build_dependency_tree (reg : Registry)
    (dependencies : List (String × String)) : Except PyErr BuildSt :=
  buildRun reg (buildFuel reg dependencies) (.deps dependencies) ⟨[], [], []⟩

/-- conflicts.add_to_dependency_tree as a function of an explicit state,
the public entry point of the recursion. -/
def add_to_dependency_tree (reg : Registry) (fuel : Nat)
    (package version_range : String) (st : BuildSt) : Except PyErr BuildSt :=
  buildRun reg fuel (.one package version_range) st

/-! ## conflicts.py: conflict detection -/

/-- The conflict message built by find_conflicts for one tree entry. -/
def conflict_message (package : String) (versions : List String) : String :=
  "Package \x27" ++ package ++ "\x27 has conflicting version requirements: "
    ++ joinWith ", " versions

/-- The scanning loop of conflicts.find_conflicts over an already built
tree: collect a message for every entry with more than one specifier, in
the iteration order of the tree's keys. -/
def detect_conflicts (tree : List (String × List String)) : List String :=
  tree.foldl (fun conflicts e =>
    if e.2.length > 1 then conflicts ++ [conflict_message e.1 e.2]
    else conflicts) []

/-- conflicts.find_conflicts: build the dependency tree, then scan it. -/
def find_conflicts (reg : Registry) (dependencies : List (String × String)) :
    Except PyErr (List String) :=
  match build_dependency_tree reg dependencies with
  | .error e => .error e
  | .ok st => .ok (detect_conflicts st.tree)

/-- conflicts.check_conflicts simply delegates to find_conflicts. -/
def check_conflicts (reg : Registry)
    (dependencies : List (String × String)) : Except PyErr (List String) :=
  find_conflicts reg dependencies

/-! ## conflicts.py: conflict resolution -/

/-- Python list indexing at 1, raising IndexError when too short. -/
def pyIndex1 (l : List String) : Except PyErr String :=
  match l with
  | _ :: x :: _ => .ok x
  | _ => .error .indexError

/-- The package name parsed back out of a conflict message:
conflict.split on the quote character, element 1. -/
def parse_conflict_package (conflict : String) : Except PyErr String :=
  pyIndex1 (pySplit conflict '\x27')

/-- The specifier list parsed back out of a conflict message: element 1
of the split on the colon, split on commas, each piece stripped. -/
def parse_conflict_versions (conflict : String) : Except PyErr (List String) :=
  match pyIndex1 (pySplit conflict ':') with
  | .error e => .error e
  | .ok seg => .ok ((pySplit seg ',').map pyStrip)

/-- Whether one concrete version satisfies one range, exactly as
find_compatible_version tests it: find_max_satisfying on the singleton
list, with Python truthiness of the result.  (On a singleton list
find_max_satisfying never raises; see the lemma below.) -/
def satisfies_one (v range_ : String) : Bool :=
  match find_max_satisfying [v] range_ with
  | .ok o => pyTruthyOpt o
  | .error _ => false

/-- The candidate filter loop of find_compatible_version: keep the
catalog versions that satisfy every range. -/
def compatible_versions_of (all_versions version_ranges : List String) :
    List String :=
  all_versions.foldl (fun acc v =>
    if version_ranges.all (fun r => satisfies_one v r) then acc ++ [v]
    else acc) []

/-- conflicts.find_compatible_version: fetch the package metadata with
the default latest specifier, read its versions catalog (KeyError when
missing), filter to the versions satisfying every range, and if any
remain re-run the matcher against them with a caret range built from the
lexicographically smallest input range stripped of leading carets. -/
def find_compatible_version (reg : Registry) (package : String)
    (version_ranges : List String) : Except PyErr (Option String) :=
  match get_package_info reg package "latest" with
  | .error e => .error e
  | .ok package_info =>
    match package_info.versionsCatalog with
    | none => .error (.keyError "versions")
    | some all_versions =>
      let compatible := compatible_versions_of all_versions version_ranges
      if compatible ≠ [] then
        match pyMin version_ranges with
        | .error e => .error e
        | .ok m =>
          find_max_satisfying compatible
            ("^" ++ String.mk (m.data.dropWhile (fun c => c = '^')))
      else .ok none

/-- The message recorded for a successfully resolved conflict. -/
def resolved_message (package v : String) : String :=
  "Resolved conflict for \x27" ++ package ++ "\x27: using version " ++ v

/-- The three accumulators of the resolve_conflicts loop. -/
structure ResolveAcc where
  resolvedMsgs : List String
  unresolvedMsgs : List String
  resolved_dependencies : List (String × String)
deriving Repr, DecidableEq

/-- The loop of conflicts.resolve_conflicts: parse each conflict message,
try find_compatible_version, and append either a resolved message plus a
dict entry or the original conflict to the unresolved list. -/
def resolve_conflicts_loop (reg : Registry) :
    List String → ResolveAcc → Except PyErr ResolveAcc
  | [], acc => .ok acc
  | conflict :: rest, acc =>
    match parse_conflict_package conflict with
    | .error e => .error e
    | .ok package =>
      match parse_conflict_versions conflict with
      | .error e => .error e
      | .ok versions =>
        match find_compatible_version reg package versions with
        | .error e => .error e
        | .ok compatible_version =>
          if pyTruthyOpt compatible_version then
            resolve_conflicts_loop reg rest
              ⟨acc.resolvedMsgs
                 ++ [resolved_message package (compatible_version.getD "")],
               acc.unresolvedMsgs,
               dictInsert acc.resolved_dependencies package
                 (compatible_version.getD "")⟩
          else
            resolve_conflicts_loop reg rest
              ⟨acc.resolvedMsgs, acc.unresolvedMsgs ++ [conflict],
               acc.resolved_dependencies⟩

/-- conflicts.resolve_conflicts: run the loop from empty accumulators;
allResolved is emptiness of the unresolved list, the messages are the
resolved ones followed by the unresolved ones, and the resolved
dependency dict maps each resolved package to its chosen version. -/
def resolve_conflicts (reg : Registry) (conflicts : List String) :
    Except PyErr (Bool × List String × List (String × String)) :=
  match resolve_conflicts_loop reg conflicts ⟨[], [], []⟩ with
  | .error e => .error e
  | .ok acc =>
    .ok (acc.unresolvedMsgs.isEmpty,
         acc.resolvedMsgs ++ acc.unresolvedMsgs,
         acc.resolved_dependencies)

/-- conflicts.check_and_resolve_conflicts: detect, then either resolve or
short-circuit to the no-conflict triple with the manifest unchanged. -/
def check_and_resolve_conflicts (reg : Registry)
    (dependencies : List (String × String)) :
    Except PyErr (Bool × List String × List (String × String)) :=
  match check_conflicts reg dependencies with
  | .error e => .error e
  | .ok conflicts =>
    if conflicts ≠ [] then resolve_conflicts reg conflicts
    else .ok (true, ["No conflicts detected."], dependencies)

/-! ## conflicts.py: lock generation -/

/-- One value of the path-keyed packages dict of the lock: the root entry
keyed by the empty path, or a package entry with its exact version,
tarball URL, integrity digest and declared sub-dependencies. -/
inductive LockPkgEntry where
  | root : String → String → List (String × String) → LockPkgEntry
  | pkg : String → String → String → List (String × String) → LockPkgEntry
deriving Repr, DecidableEq

/-- One value of the top-level dependencies dict of the lock. -/
structure TopDepEntry where
  version : String
  resolved : String
  integrity : String
deriving Repr, DecidableEq

/-- The lock structure built by create_package_lock, plus the log of the
per-package error messages it prints. -/
structure LockData where
  name : String
  version : String
  lockfileVersion : Nat
  requires : Bool
  packages : List (String × LockPkgEntry)
  dependencies : List (String × TopDepEntry)
  errorLog : List String
deriving Repr, DecidableEq

/-- One pending activation of the lock walk: a single add_package_to_lock
call, or the loop over a dependencies dict under one parent path. -/
inductive LockCall where
  | one : String → String → String → LockCall
  | deps : List (String × String) → String → LockCall
deriving Repr, DecidableEq

/-- The text Python str gives for each modelled exception. -/
def pyErrMessage : PyErr → String
  | .keyError k => "\x27" ++ k ++ "\x27"
  | .valueError m => m
  | .indexError => "list index out of range"
  | .httpStatusError p => "HTTP status error for " ++ p
  | .recursionError => "maximum recursion depth exceeded"

/-- The error line printed when one package of the lock walk fails. -/
def lock_error_message (package version msg : String) : String :=
  "Error processing dependency " ++ package ++ "@" ++ version ++ ": " ++ msg

/-- conflicts.create_package_lock's inner add_package_to_lock together
with its loop over nested dependencies, with explicit fuel.  Every
exception of the body, including the RecursionError that exhausted fuel
models, is caught: the error is logged, that subtree is skipped and the
state is returned so that sibling subtrees continue.  There is no
visited set here, and each visit fetches metadata afresh. -/
def lockRun (reg : Registry) : Nat → LockCall → LockData → LockData
  | 0, .one package version _, st =>
    { st with errorLog := st.errorLog
        ++ [lock_error_message package version
             (pyErrMessage PyErr.recursionError)] }
  | 0, .deps _ _, st => st
  | _ + 1, .deps [] _, st => st
  | fuel + 1, .deps ((p, vr) :: rest) parent_path, st =>
    lockRun reg fuel (.deps rest parent_path)
      (lockRun reg fuel (.one p vr parent_path) st)
  | fuel + 1, .one package version parent_path, st =>
    match get_package_info reg package version with
    | .error e =>
      { st with errorLog := st.errorLog
          ++ [lock_error_message package version (pyErrMessage e)] }
    | .ok info =>
      let package_path := parent_path ++ "node_modules/" ++ package
      let entry : LockPkgEntry :=
        LockPkgEntry.pkg info.version info.distTarball info.distIntegrity
          info.dependencies
      let topEntry : TopDepEntry :=
        ⟨info.version, info.distTarball, info.distIntegrity⟩
      let st1 := { st with
        packages := dictInsert st.packages package_path entry }
      let st2 := if parent_path = "" then
          { st1 with
            dependencies := dictInsert st1.dependencies package topEntry }
        else st1
      lockRun reg fuel (.deps info.dependencies (package_path ++ "/")) st2

/-- The lock structure before any package is added: fixed project
metadata and the root entry of the packages dict, which records the
original manifest dependencies. -/
def initLock (dependencies : List (String × String)) : LockData :=
  { name := "project-name", version := "1.0.0", lockfileVersion := 2,
    requires := true,
    packages := [("", .root "project-name" "1.0.0" dependencies)],
    dependencies := [], errorLog := [] }

/-- conflicts.create_package_lock: re-validate the resolution (raising
ValueError when it reports failure, and propagating any exception it
raises), then walk every resolved top-level dependency. -/
def create_package_lock (reg : Registry)
    (dependencies : List (String × String)) : Except PyErr LockData :=
  match check_and_resolve_conflicts reg dependencies with
  | .error e => .error e
  | .ok (resolved, _msgs, resolved_deps) =>
    if resolved then
      .ok (lockRun reg (resolved_deps.length + 1 + regPotential reg [])
        (.deps resolved_deps "") (initLock dependencies))
    else
      .error (.valueError
        "Unable to resolve all conflicts. Please check your dependencies.")

/-! ## Specification-level definitions used by the theorems -/

/-- The cost one activation charges against the fuel budget. -/
def callCost : BuildCall → Nat
  | .one _ _ => 1
  | .deps l => l.length + 1

/-- The invariant of the tree traversal state: the visited list has no
duplicates, the fetch log is exactly the visited list, tree keys are
unique, and every tree entry holds a single specifier for an already
visited package. -/
def buildInv (st : BuildSt) : Prop :=
  st.visited.Nodup ∧ st.fetchLog = st.visited ∧
  (st.tree.map Prod.fst).Nodup ∧
  ∀ p l, dictGet st.tree p = some l → l.length = 1 ∧ p ∈ st.visited

/-- The outcome of one conflict in resolve_conflicts, recomputed
declaratively: the parsed package and chosen version when resolution
succeeds, none when the conflict stays unresolved, or the propagated
exception. -/
def conflict_resolution (reg : Registry) (conflict : String) :
    Except PyErr (Option (String × String)) :=
  match parse_conflict_package conflict with
  | .error e => .error e
  | .ok package =>
    match parse_conflict_versions conflict with
    | .error e => .error e
    | .ok versions =>
      match find_compatible_version reg package versions with
      | .error e => .error e
      | .ok cv =>
        .ok (if pyTruthyOpt cv then some (package, cv.getD "") else none)

/-- The resolved messages of a list of conflict outcomes, in order. -/
def resolvedMessagesOf
    (outcomes : List (String × Option (String × String))) : List String :=
  outcomes.filterMap (fun e => e.2.map (fun pv => resolved_message pv.1 pv.2))

/-- The unresolved conflict messages of a list of outcomes, in order. -/
def unresolvedOf
    (outcomes : List (String × Option (String × String))) : List String :=
  outcomes.filterMap (fun e =>
    match e.2 with
    | none => some e.1
    | some _ => none)

/-- The resolved dependency dict of a list of outcomes. -/
def resolvedDictOf (outcomes : List (String × Option (String × String))) :
    List (String × String) :=
  (outcomes.filterMap (fun e => e.2)).foldl
    (fun d pv => dictInsert d pv.1 pv.2) []

/-! ## Example registries and manifests used by the concrete theorems -/

/-- Shorthand for version metadata in the example registries. -/
def exInfo (v : String) (deps : List (String × String))
    (cat : Option (List String)) : VersionInfo :=
  ⟨v, deps, "tar-" ++ v, "sha-" ++ v, cat⟩

/-- A registry where package c is required by a with caret one and by b
with caret two: two distinct specifiers for one nested name. -/
def dualSpecifierReg : Registry :=
  [("a", ⟨some "1.0.0", [("1.0.0", exInfo "1.0.0" [("c", "^1.0.0")] none)]⟩),
   ("b", ⟨some "1.0.0", [("1.0.0", exInfo "1.0.0" [("c", "^2.0.0")] none)]⟩),
   ("c", ⟨some "2.0.0", [("1.0.0", exInfo "1.0.0" [] none),
                         ("2.0.0", exInfo "2.0.0" [] none)]⟩)]

/-- The manifest requesting a and b of the dual specifier registry. -/
def dualSpecifierManifest : List (String × String) :=
  [("a", "^1.0.0"), ("b", "^1.0.0")]

/-- A registry with a dependency cycle: a requires b and b requires a. -/
def cycleReg : Registry :=
  [("a", ⟨some "1.0.0", [("1.0.0", exInfo "1.0.0" [("b", "^1.0.0")] none)]⟩),
   ("b", ⟨some "1.0.0", [("1.0.0", exInfo "1.0.0" [("a", "^1.0.0")] none)]⟩)]

/-- The manifest requesting a of the cyclic registry. -/
def cycleManifest : List (String × String) := [("a", "^1.0.0")]

/-- A registry carrying the two version catalogs of the spec's resolver
examples: p with catalog 1.0.0, 1.1.0, 1.2.0 and q with catalog 1.0.0,
1.1.0, 2.0.0. -/
def catalogReg : Registry :=
  [("p", ⟨some "1.2.0",
     [("1.2.0", exInfo "1.2.0" [] (some ["1.0.0", "1.1.0", "1.2.0"]))]⟩),
   ("q", ⟨some "2.0.0",
     [("2.0.0", exInfo "2.0.0" [] (some ["1.0.0", "1.1.0", "2.0.0"]))]⟩)]

/-- The two conflict messages the detector would word for p and q. -/
def exampleConflicts : List String :=
  ["Package \x27p\x27 has conflicting version requirements: ^1.0.0, ^1.2.0",
   "Package \x27q\x27 has conflicting version requirements: ^1.0.0, ^2.0.0"]

/-- A registry where a at version 1.0.0 depends on b, resolved at the
distinct version 1.1.0, and b has no dependencies. -/
def nestedLockReg : Registry :=
  [("a", ⟨some "1.0.0", [("1.0.0", exInfo "1.0.0" [("b", "^1.0.0")] none)]⟩),
   ("b", ⟨some "1.1.0", [("1.1.0", exInfo "1.1.0" [] none)]⟩)]

/-- The manifest requesting only a of the nested lock registry. -/
def nestedLockManifest : List (String × String) := [("a", "^1.0.0")]

/-- The lock the embedded create_package_lock produces for the nested
lock registry and manifest. -/
def nestedLockExpected : LockData :=
  { name := "project-name", version := "1.0.0", lockfileVersion := 2,
    requires := true,
    packages :=
      [("", .root "project-name" "1.0.0" [("a", "^1.0.0")]),
       ("node_modules/a",
        .pkg "1.0.0" "tar-1.0.0" "sha-1.0.0" [("b", "^1.0.0")]),
       ("node_modules/a/node_modules/b",
        .pkg "1.1.0" "tar-1.1.0" "sha-1.1.0" [])],
    dependencies := [("a", ⟨"1.0.0", "tar-1.0.0", "sha-1.0.0"⟩)],
    errorLog := [] }

/-- A registry where tree building succeeds (c is first reached with a
caret range) but lock generation re-fetches c with the latest marker,
which fails because c has no dist-tags entry. -/
def asymmetricReg : Registry :=
  [("a", ⟨some "1.0.0", [("1.0.0", exInfo "1.0.0" [("c", "^1.0.0")] none)]⟩),
   ("b", ⟨some "1.0.0", [("1.0.0", exInfo "1.0.0" [("c", "latest")] none)]⟩),
   ("c", ⟨none, [("1.0.0", exInfo "1.0.0" [] none)]⟩)]

/-- The manifest requesting a and b of the asymmetric registry. -/
def asymmetricManifest : List (String × String) :=
  [("a", "^1.0.0"), ("b", "^1.0.0")]

/-! ## Supporting lemmas: dictionaries -/

theorem dictGet_dictInsert_self {α : Type} (d : List (String × α))
    (k : String) (v : α) : dictGet (dictInsert d k v) k = some v := by
  induction d with
  | nil => simp [dictGet, dictInsert]
  | cons e rest ih =>
    obtain ⟨k', v'⟩ := e
    by_cases h : k' = k
    · simp [dictGet, dictInsert, h]
    · simp [dictGet, dictInsert, h, ih]

theorem dictGet_dictInsert_ne {α : Type} (d : List (String × α))
    (k q : String) (v : α) (h : q ≠ k) :
    dictGet (dictInsert d k v) q = dictGet d q := by
  induction d with
  | nil => simp [dictGet, dictInsert, Ne.symm h]
  | cons e rest ih =>
    obtain ⟨k', v'⟩ := e
    by_cases hk : k' = k
    · subst hk
      simp [dictGet, dictInsert, Ne.symm h]
    · simp only [dictInsert, if_neg hk]
      by_cases hq : k' = q
      · simp [dictGet, hq]
      · simp [dictGet, hq, ih]

theorem dictGet_append {α : Type} (d₁ d₂ : List (String × α)) (k : String) :
    dictGet (d₁ ++ d₂) k =
      match dictGet d₁ k with
      | some v => some v
      | none => dictGet d₂ k := by
  induction d₁ with
  | nil => simp [dictGet]
  | cons e rest ih =>
    obtain ⟨k', v'⟩ := e
    by_cases h : k' = k
    · simp [dictGet, h]
    · simp [dictGet, h, ih]

theorem dictGet_some_mem {α : Type} (d : List (String × α)) (k : String)
    (v : α) (h : dictGet d k = some v) : (k, v) ∈ d := by
  induction d with
  | nil => simp [dictGet] at h
  | cons e rest ih =>
    obtain ⟨k', v'⟩ := e
    by_cases hk : k' = k
    · subst hk
      simp [dictGet] at h
      simp [h]
    · simp [dictGet, hk] at h
      exact List.mem_cons_of_mem _ (ih h)

theorem dictGet_none_iff {α : Type} (d : List (String × α)) (k : String) :
    dictGet d k = none ↔ k ∉ d.map Prod.fst := by
  induction d with
  | nil => simp [dictGet]
  | cons e rest ih =>
    obtain ⟨k', v'⟩ := e
    by_cases hk : k' = k
    · subst hk
      simp [dictGet]
    · simp [dictGet, hk, ih, Ne.symm hk]

theorem dictInsert_of_get_none {α : Type} (d : List (String × α))
    (k : String) (v : α) (h : dictGet d k = none) :
    dictInsert d k v = d ++ [(k, v)] := by
  induction d with
  | nil => simp [dictInsert]
  | cons e rest ih =>
    obtain ⟨k', v'⟩ := e
    by_cases hk : k' = k
    · simp [dictGet, hk] at h
    · simp [dictGet, hk] at h
      simp [dictInsert, hk, ih h]

theorem dictInsert_append_self {α : Type} (d : List (String × α))
    (k : String) (w v : α) (h : dictGet d k = none) :
    dictInsert (d ++ [(k, w)]) k v = d ++ [(k, v)] := by
  induction d with
  | nil => simp [dictInsert]
  | cons e rest ih =>
    obtain ⟨k', v'⟩ := e
    by_cases hk : k' = k
    · simp [dictGet, hk] at h
    · simp [dictGet, hk] at h
      simp [dictInsert, hk, ih h]

theorem dictGet_of_mem_nodup {α : Type} (d : List (String × α))
    (k : String) (v : α) (hn : (d.map Prod.fst).Nodup) (hm : (k, v) ∈ d) :
    dictGet d k = some v := by
  induction d with
  | nil => simp at hm
  | cons e rest ih =>
    obtain ⟨k', v'⟩ := e
    simp only [List.map_cons, List.nodup_cons] at hn
    rcases List.mem_cons.mp hm with h | h
    · have h1 : k = k' := congrArg Prod.fst h
      have h2 : v = v' := congrArg Prod.snd h
      subst h1
      subst h2
      simp [dictGet]
    · have hk : k' ≠ k := fun hkk =>
        hn.1 (hkk.symm ▸ List.mem_map.mpr ⟨(k, v), h, rfl⟩)
      simp [dictGet, hk, ih hn.2 h]

/-! ## Supporting lemmas: the tree traversal state -/

theorem recordVisit_visited (st : BuildSt) (p vr : String) :
    (recordVisit st p vr).visited = st.visited ++ [p] := rfl

theorem recordVisit_fetchLog (st : BuildSt) (p vr : String) :
    (recordVisit st p vr).fetchLog = st.fetchLog ++ [p] := rfl

theorem recordVisit_tree_of_fresh (st : BuildSt) (p vr : String)
    (h : dictGet st.tree p = none) :
    (recordVisit st p vr).tree = st.tree ++ [(p, [vr])] := by
  unfold recordVisit
  simp only [h, Option.isSome_none, Bool.false_eq_true, if_false,
    dictInsert_of_get_none st.tree p ([] : List String) h, dictGet_append, h]
  simp [dictGet, dictInsert_append_self st.tree p ([] : List String) [vr] h]

theorem buildInv_recordVisit (st : BuildSt) (p vr : String)
    (hp : p ∉ st.visited) (hinv : buildInv st) :
    buildInv (recordVisit st p vr) := by
  obtain ⟨hvn, hlog, hkeys, hget⟩ := hinv
  have hnone : dictGet st.tree p = none := by
    cases hg : dictGet st.tree p with
    | none => rfl
    | some l => exact absurd ((hget p l hg).2) hp
  have htree := recordVisit_tree_of_fresh st p vr hnone
  have hvis := recordVisit_visited st p vr
  have hflog := recordVisit_fetchLog st p vr
  have hpk : p ∉ st.tree.map Prod.fst := (dictGet_none_iff st.tree p).mp hnone
  refine ⟨?_, ?_, ?_, ?_⟩
  · rw [hvis]
    simp [List.nodup_append, hvn, hp]
  · rw [hvis, hflog, hlog]
  · rw [htree]
    simp [List.nodup_append, hkeys, hpk]
  · intro q l hq
    rw [htree, dictGet_append] at hq
    cases hg : dictGet st.tree q with
    | some l' =>
      rw [hg] at hq
      simp only [Option.some.injEq] at hq
      subst hq
      have := hget q l' hg
      exact ⟨this.1, by rw [hvis]; exact List.mem_append_left _ this.2⟩
    | none =>
      rw [hg] at hq
      simp only [dictGet] at hq
      by_cases hqp : p = q
      · subst hqp
        simp at hq
        subst hq
        exact ⟨rfl, by rw [hvis]; simp⟩
      · simp [hqp] at hq

theorem buildRun_visited_mono (reg : Registry) :
    ∀ (fuel : Nat) (call : BuildCall) (st st' : BuildSt),
      buildRun reg fuel call st = .ok st' →
      ∀ x, x ∈ st.visited → x ∈ st'.visited := by
  intro fuel
  induction fuel with
  | zero => intro call st st' h; simp [buildRun] at h
  | succ n ih =>
    intro call st st' h
    match call with
    | .deps [] =>
      simp only [buildRun] at h
      cases h
      exact fun x hx => hx
    | .deps ((p, vr) :: rest) =>
      simp only [buildRun] at h
      cases hh : buildRun reg n (.one p vr) st with
      | error e => rw [hh] at h; cases h
      | ok stm =>
        rw [hh] at h
        exact fun x hx => ih _ _ _ h x (ih _ _ _ hh x hx)
    | .one package vr =>
      simp only [buildRun] at h
      by_cases hv : package ∈ st.visited
      · rw [if_pos hv] at h
        cases h
        exact fun x hx => hx
      · rw [if_neg hv] at h
        cases hg : get_package_info reg package vr with
        | error e => rw [hg] at h; cases h
        | ok info =>
          rw [hg] at h
          intro x hx
          exact ih _ _ _ h x
            (by rw [recordVisit_visited]; exact List.mem_append_left _ hx)

theorem buildRun_ok_inv (reg : Registry) :
    ∀ (fuel : Nat) (call : BuildCall) (st st' : BuildSt),
      buildRun reg fuel call st = .ok st' → buildInv st → buildInv st' := by
  intro fuel
  induction fuel with
  | zero => intro call st st' h; simp [buildRun] at h
  | succ n ih =>
    intro call st st' h hinv
    match call with
    | .deps [] =>
      simp only [buildRun] at h
      cases h
      exact hinv
    | .deps ((p, vr) :: rest) =>
      simp only [buildRun] at h
      cases hh : buildRun reg n (.one p vr) st with
      | error e => rw [hh] at h; cases h
      | ok stm =>
        rw [hh] at h
        exact ih _ _ _ h (ih _ _ _ hh hinv)
    | .one package vr =>
      simp only [buildRun] at h
      by_cases hv : package ∈ st.visited
      · rw [if_pos hv] at h
        cases h
        exact hinv
      · rw [if_neg hv] at h
        cases hg : get_package_info reg package vr with
        | error e => rw [hg] at h; cases h
        | ok info =>
          rw [hg] at h
          exact ih _ _ _ h (buildInv_recordVisit st package vr hv hinv)

/-! ## Supporting lemmas: fuel sufficiency of the tree traversal -/

theorem regPotential_mono (reg : Registry) (v v' : List String)
    (h : ∀ x, x ∈ v → x ∈ v') :
    regPotential reg v' ≤ regPotential reg v := by
  induction reg with
  | nil => simp [regPotential]
  | cons e rest ih =>
    simp only [regPotential, List.map_cons, List.sum_cons] at *
    apply Nat.add_le_add _ ih
    by_cases hm : e.1 ∈ v
    · simp [hm, h e.1 hm]
    · by_cases hm' : e.1 ∈ v'
      · simp [hm, hm']
      · simp [hm, hm']

theorem regPotential_visit (reg : Registry) (p : String)
    (v : List String) (pk : Packument) (hd : dictGet reg p = some pk)
    (hp : p ∉ v) :
    regPotential reg (v ++ [p]) + sumDeps pk + 2 ≤ regPotential reg v := by
  induction reg with
  | nil => simp [dictGet] at hd
  | cons e rest ih =>
    obtain ⟨k, pk'⟩ := e
    by_cases hk : k = p
    · subst hk
      simp [dictGet] at hd
      subst hd
      simp only [regPotential, List.map_cons, List.sum_cons]
      have hkin : k ∈ v ++ [k] := List.mem_append_right _ (by simp)
      rw [if_pos hkin, if_neg hp]
      have := regPotential_mono rest v (v ++ [k])
        (fun x hx => List.mem_append_left _ hx)
      simp only [regPotential] at this
      omega
    · simp only [dictGet, if_neg hk] at hd
      have := ih hd
      simp only [regPotential, List.map_cons, List.sum_cons] at *
      have hmem : k ∈ v ++ [p] ↔ k ∈ v := by
        simp [List.mem_append, hk]
      by_cases hkv : k ∈ v
      · rw [if_pos (hmem.mpr hkv), if_pos hkv]
        omega
      · rw [if_neg (fun hh => hkv (hmem.mp hh)), if_neg hkv]
        omega

theorem max_satisfying_error_shape (versions : List String) (r : String)
    (e : PyErr) (h : max_satisfying versions r = .error e) :
    ∃ m, e = .valueError m := by
  unfold max_satisfying at h
  cases hp : parseSemverRange r with
  | none =>
    rw [hp] at h
    exact ⟨"invalid range", by cases h; rfl⟩
  | some rr => rw [hp] at h; cases h

theorem find_max_satisfying_error_shape (versions : List String) (r : String)
    (e : PyErr) (h : find_max_satisfying versions r = .error e) :
    ∃ m, e = .valueError m := by
  simp only [find_max_satisfying] at h
  by_cases hl : parse_version_range r = "latest"
  · rw [if_pos hl] at h
    cases versions with
    | nil =>
      simp only [pyMax] at h
      exact ⟨"max() arg is an empty sequence", by cases h; rfl⟩
    | cons x xs => simp [pyMax] at h
  · rw [if_neg hl] at h
    cases hm : max_satisfying versions (parse_version_range r) with
    | error e' =>
      obtain ⟨m, rfl⟩ := max_satisfying_error_shape _ _ _ hm
      rw [hm] at h
      simp at h
    | ok o => rw [hm] at h; simp at h

/-! ## Supporting lemmas: shape of get_package_info results -/

theorem latest_or_given_error_shape (pd : Packument) (v : String)
    (e : PyErr) (h : latest_or_given pd v = .error e) :
    e = .keyError "latest" := by
  unfold latest_or_given at h
  by_cases hl : v = "latest"
  · rw [if_pos hl] at h
    cases hdt : pd.distTagsLatest with
    | none => rw [hdt] at h; cases h; rfl
    | some lv => rw [hdt] at h; cases h
  · rw [if_neg hl] at h
    cases h

theorem fallback_version_error_shape (pd : Packument) (v1 : String)
    (e : PyErr) (h : fallback_version pd v1 = .error e) :
    e = .keyError "latest" := by
  simp only [fallback_version] at h
  by_cases hs : (dictGet pd.versions
      (if headIs v1 '^' || headIs v1 '~' then lstripCaretTilde v1
       else v1)).isSome = true
  · rw [if_pos hs] at h
    cases h
  · rw [if_neg hs] at h
    cases hd : pd.distTagsLatest with
    | none => rw [hd] at h; cases h; rfl
    | some lv => rw [hd] at h; cases h

theorem pick_matching_version_error_shape (pd : Packument) (v1 : String)
    (e : PyErr) (h : pick_matching_version pd v1 = .error e) :
    e ≠ .recursionError := by
  unfold pick_matching_version at h
  cases hf : find_max_satisfying (pd.versions.map Prod.fst) v1 with
  | error e' =>
    rw [hf] at h
    obtain ⟨m, rfl⟩ := find_max_satisfying_error_shape _ _ _ hf
    cases h
    simp
  | ok matching0 =>
    rw [hf] at h
    dsimp only at h
    by_cases ht : pyTruthyOpt matching0 = true
    · rw [if_pos ht] at h
      dsimp only at h
      cases hd : dictGet pd.versions (matching0.getD "") with
      | none => rw [hd] at h; cases h; simp
      | some vi => rw [hd] at h; cases h
    · rw [if_neg ht] at h
      cases hfb : fallback_version pd v1 with
      | error e' =>
        rw [hfb] at h
        have := fallback_version_error_shape _ _ _ hfb
        subst this
        cases h
        simp
      | ok mv =>
        rw [hfb] at h
        dsimp only at h
        cases hd : dictGet pd.versions mv with
        | none => rw [hd] at h; cases h; simp
        | some vi => rw [hd] at h; cases h

theorem pick_matching_version_ok_spec (pd : Packument) (v1 : String)
    (info : VersionInfo) (h : pick_matching_version pd v1 = .ok info) :
    ∃ mv, dictGet pd.versions mv = some info := by
  unfold pick_matching_version at h
  cases hf : find_max_satisfying (pd.versions.map Prod.fst) v1 with
  | error e' => rw [hf] at h; cases h
  | ok matching0 =>
    rw [hf] at h
    dsimp only at h
    by_cases ht : pyTruthyOpt matching0 = true
    · rw [if_pos ht] at h
      dsimp only at h
      cases hd : dictGet pd.versions (matching0.getD "") with
      | none => rw [hd] at h; cases h
      | some vi =>
        rw [hd] at h
        cases h
        exact ⟨_, hd⟩
    · rw [if_neg ht] at h
      cases hfb : fallback_version pd v1 with
      | error e' => rw [hfb] at h; cases h
      | ok mv =>
        rw [hfb] at h
        dsimp only at h
        cases hd : dictGet pd.versions mv with
        | none => rw [hd] at h; cases h
        | some vi =>
          rw [hd] at h
          cases h
          exact ⟨_, hd⟩

theorem get_package_info_error_shape (reg : Registry) (p v : String)
    (e : PyErr) (h : get_package_info reg p v = .error e) :
    e ≠ .recursionError := by
  unfold get_package_info at h
  cases hd : dictGet reg p with
  | none => rw [hd] at h; cases h; simp
  | some pd =>
    rw [hd] at h
    dsimp only at h
    cases hl : latest_or_given pd v with
    | error e' =>
      rw [hl] at h
      have := latest_or_given_error_shape _ _ _ hl
      subst this
      cases h
      simp
    | ok v1 =>
      rw [hl] at h
      exact pick_matching_version_error_shape _ _ _ h

theorem get_package_info_ok_spec (reg : Registry) (p v : String)
    (info : VersionInfo) (h : get_package_info reg p v = .ok info) :
    ∃ pk, dictGet reg p = some pk ∧ ∃ mv, dictGet pk.versions mv = some info := by
  unfold get_package_info at h
  cases hd : dictGet reg p with
  | none => rw [hd] at h; cases h
  | some pd =>
    rw [hd] at h
    dsimp only at h
    cases hl : latest_or_given pd v with
    | error e' => rw [hl] at h; cases h
    | ok v1 =>
      rw [hl] at h
      exact ⟨pd, rfl, pick_matching_version_ok_spec _ _ _ h⟩

theorem deps_length_le_sumDeps (versions : List (String × VersionInfo))
    (mv : String) (info : VersionInfo) (h : dictGet versions mv = some info) :
    info.dependencies.length ≤
      (versions.map (fun e => e.2.dependencies.length)).sum := by
  induction versions with
  | nil => simp [dictGet] at h
  | cons e rest ih =>
    obtain ⟨k, vi⟩ := e
    by_cases hk : k = mv
    · simp [dictGet, hk] at h
      subst h
      simp
    · simp [dictGet, hk] at h
      have := ih h
      simp only [List.map_cons, List.sum_cons]
      omega

theorem buildRun_enough_fuel (reg : Registry) :
    ∀ (fuel : Nat) (call : BuildCall) (st : BuildSt),
      callCost call + regPotential reg st.visited ≤ fuel →
      buildRun reg fuel call st ≠ .error .recursionError := by
  intro fuel
  induction fuel with
  | zero =>
    intro call st hle
    exfalso
    cases call with
    | one p vr => simp only [callCost] at hle; omega
    | deps l => simp only [callCost] at hle; omega
  | succ n ih =>
    intro call st hle
    match call with
    | .deps [] => simp [buildRun]
    | .deps ((p, vr) :: rest) =>
      simp only [buildRun]
      cases hh : buildRun reg n (.one p vr) st with
      | error e =>
        dsimp only
        have hne := ih (.one p vr) st
          (by simp only [callCost, List.length_cons] at hle ⊢; omega)
        rw [hh] at hne
        exact hne
      | ok stm =>
        dsimp only
        have hmono := buildRun_visited_mono reg n _ _ _ hh
        have hpot := regPotential_mono reg st.visited stm.visited hmono
        exact ih (.deps rest) stm
          (by simp only [callCost, List.length_cons] at hle ⊢; omega)
    | .one p vr =>
      simp only [buildRun]
      by_cases hv : p ∈ st.visited
      · rw [if_pos hv]; simp
      · rw [if_neg hv]
        cases hg : get_package_info reg p vr with
        | error e =>
          dsimp only
          have := get_package_info_error_shape reg p vr e hg
          intro hcon
          exact this (by injection hcon)
        | ok info =>
          dsimp only
          obtain ⟨pk, hdreg, mv, hdv⟩ := get_package_info_ok_spec reg p vr info hg
          have hdep : info.dependencies.length ≤ sumDeps pk :=
            deps_length_le_sumDeps pk.versions mv info hdv
          have hvisit := regPotential_visit reg p st.visited pk hdreg hv
          apply ih (.deps info.dependencies) (recordVisit st p vr)
          rw [recordVisit_visited]
          simp only [callCost] at hle ⊢
          omega

theorem build_dependency_tree_enough_fuel (reg : Registry)
    (deps : List (String × String)) :
    build_dependency_tree reg deps ≠ .error .recursionError := by
  unfold build_dependency_tree
  apply buildRun_enough_fuel
  simp only [callCost, buildFuel]
  omega

/-! ## Supporting lemmas: the conflict scan and the candidate filter -/

theorem detect_conflicts_foldl (tree : List (String × List String))
    (acc : List String) :
    tree.foldl (fun conflicts e =>
        if e.2.length > 1 then conflicts ++ [conflict_message e.1 e.2]
        else conflicts) acc =
      acc ++ (tree.filter (fun e => decide (e.2.length > 1))).map
        (fun e => conflict_message e.1 e.2) := by
  induction tree generalizing acc with
  | nil => simp
  | cons e rest ih =>
    by_cases h : e.2.length > 1
    · simp [List.foldl_cons, h, ih, List.filter_cons]
    · simp [List.foldl_cons, h, ih, List.filter_cons]

theorem detect_conflicts_eq (tree : List (String × List String)) :
    detect_conflicts tree =
      (tree.filter (fun e => decide (e.2.length > 1))).map
        (fun e => conflict_message e.1 e.2) := by
  unfold detect_conflicts
  simpa using detect_conflicts_foldl tree []

theorem compatible_versions_of_foldl (catalog ranges : List String)
    (acc : List String) :
    catalog.foldl (fun acc v =>
        if ranges.all (fun r => satisfies_one v r) then acc ++ [v]
        else acc) acc =
      acc ++ catalog.filter (fun v => ranges.all (fun r => satisfies_one v r)) := by
  induction catalog generalizing acc with
  | nil => simp
  | cons v rest ih =>
    rw [List.foldl_cons]
    cases h : ranges.all (fun r => satisfies_one v r) with
    | true =>
      rw [if_pos rfl, ih, List.filter_cons, if_pos h]
      simp
    | false =>
      rw [if_neg (by simp), ih, List.filter_cons,
        if_neg (by simp [h])]

theorem compatible_versions_of_eq (catalog ranges : List String) :
    compatible_versions_of catalog ranges =
      catalog.filter (fun v => ranges.all (fun r => satisfies_one v r)) := by
  unfold compatible_versions_of
  simpa using compatible_versions_of_foldl catalog ranges []

theorem find_max_satisfying_nonempty_ok (v : String) (vs : List String)
    (r : String) : ∃ o, find_max_satisfying (v :: vs) r = .ok o := by
  simp only [find_max_satisfying]
  by_cases hl : parse_version_range r = "latest"
  · rw [if_pos hl]
    refine ⟨some (vs.foldl (fun a b => if pyStrLt a b then b else a) v), ?_⟩
    simp [pyMax]
  · rw [if_neg hl]
    cases hm : max_satisfying (v :: vs) (parse_version_range r) with
    | error e =>
      obtain ⟨m, rfl⟩ := max_satisfying_error_shape _ _ _ hm
      exact ⟨none, rfl⟩
    | ok o => exact ⟨o, rfl⟩

/-! ## Supporting lemmas: the Python string order and max -/

theorem listCharLt_irrefl (l : List Char) : listCharLt l l = false := by
  induction l with
  | nil => simp [listCharLt]
  | cons c rest ih => simp [listCharLt, lt_irrefl, ih]

theorem listCharLt_cons (a b : Char) (as bs : List Char) :
    listCharLt (a :: as) (b :: bs) =
      (if a < b then true else if b < a then false else listCharLt as bs) :=
  rfl

theorem listCharLt_trans (a : List Char) :
    ∀ b c : List Char, listCharLt a b = true → listCharLt b c = true →
      listCharLt a c = true := by
  induction a with
  | nil =>
    intro b c h1 h2
    cases b with
    | nil => simp [listCharLt] at h1
    | cons y ys =>
      cases c with
      | nil => simp [listCharLt] at h2
      | cons z zs => simp [listCharLt]
  | cons x xs ih =>
    intro b c h1 h2
    cases b with
    | nil => simp [listCharLt] at h1
    | cons y ys =>
      cases c with
      | nil => simp [listCharLt] at h2
      | cons z zs =>
        rw [listCharLt_cons] at h1 h2 ⊢
        by_cases hyz : y < z
        · by_cases hxy : x < y
          · rw [if_pos (lt_trans hxy hyz)]
          · by_cases hyx : y < x
            · rw [if_neg hxy, if_pos hyx] at h1
              cases h1
            · have hx : x = y :=
                le_antisymm (le_of_not_lt hyx) (le_of_not_lt hxy)
              rw [if_pos (lt_of_le_of_lt (le_of_eq hx) hyz)]
        · by_cases hzy : z < y
          · rw [if_neg hyz, if_pos hzy] at h2
            cases h2
          · have hy : y = z :=
              le_antisymm (le_of_not_lt hzy) (le_of_not_lt hyz)
            rw [if_neg hyz, if_neg hzy] at h2
            by_cases hxy : x < y
            · rw [if_pos (lt_of_lt_of_le hxy (le_of_eq hy))]
            · by_cases hyx : y < x
              · rw [if_neg hxy, if_pos hyx] at h1
                cases h1
              · have hxz : ¬ x < z :=
                  fun hc => hxy (lt_of_lt_of_le hc (le_of_eq hy.symm))
                have hzx : ¬ z < x :=
                  fun hc => hyx (lt_of_le_of_lt (le_of_eq hy) hc)
                rw [if_neg hxy, if_neg hyx] at h1
                rw [if_neg hxz, if_neg hzx]
                exact ih ys zs h1 h2

theorem pyStrLt_irrefl (s : String) : pyStrLt s s = false :=
  listCharLt_irrefl s.data

theorem pyStrLt_trans (a b c : String) (h1 : pyStrLt a b = true)
    (h2 : pyStrLt b c = true) : pyStrLt a c = true :=
  listCharLt_trans a.data b.data c.data h1 h2

theorem listCharLt_total (a : List Char) :
    ∀ b : List Char,
      listCharLt a b = true ∨ listCharLt b a = true ∨ a = b := by
  induction a with
  | nil =>
    intro b
    cases b with
    | nil => right; right; rfl
    | cons y ys => left; simp [listCharLt]
  | cons x xs ih =>
    intro b
    cases b with
    | nil => right; left; simp [listCharLt]
    | cons y ys =>
      by_cases hxy : x < y
      · left; simp [listCharLt, hxy]
      · by_cases hyx : y < x
        · right; left; simp [listCharLt, hyx]
        · have hxy' : x = y := le_antisymm (le_of_not_lt hyx) (le_of_not_lt hxy)
          subst hxy'
          rcases ih ys with h | h | h
          · left; simp [listCharLt, lt_irrefl, h]
          · right; left; simp [listCharLt, lt_irrefl, h]
          · right; right; rw [h]

theorem pyStrLt_total (a b : String)
    (h1 : pyStrLt a b = false) (h2 : pyStrLt b a = false) : a = b := by
  rcases listCharLt_total a.data b.data with h | h | h
  · rw [pyStrLt] at h1; rw [h1] at h; cases h
  · rw [pyStrLt] at h2; rw [h2] at h; cases h
  · cases a with
    | mk da =>
      cases b with
      | mk db => exact congrArg String.mk h

theorem pyMaxFold_spec (xs : List String) :
    ∀ (x : String),
      ((xs.foldl (fun a b => if pyStrLt a b then b else a) x) ∈ x :: xs) ∧
      (∀ v ∈ x :: xs,
        pyStrLt (xs.foldl (fun a b => if pyStrLt a b then b else a) x) v
          = false) := by
  induction xs with
  | nil =>
    intro x
    refine ⟨by simp, ?_⟩
    intro v hv
    simp only [List.mem_singleton] at hv
    subst hv
    simp [pyStrLt_irrefl]
  | cons y ys ih =>
    intro x
    have hfold : (y :: ys).foldl (fun a b => if pyStrLt a b then b else a) x =
        ys.foldl (fun a b => if pyStrLt a b then b else a)
          (if pyStrLt x y then y else x) := rfl
    obtain ⟨ihm, ihub⟩ := ih (if pyStrLt x y then y else x)
    constructor
    · rw [hfold]
      rcases List.mem_cons.mp ihm with hm | hm
      · by_cases hxy : pyStrLt x y = true
        · rw [if_pos hxy] at hm ⊢
          rw [hm]
          simp
        · rw [if_neg hxy] at hm ⊢
          rw [hm]
          simp
      · simp [List.mem_cons, hm]
    · intro v hv
      rw [hfold]
      by_cases hxy : pyStrLt x y = true
      · rw [if_pos hxy] at ihub ⊢
        rcases List.mem_cons.mp hv with hveq | hv2
        · subst hveq
          cases hrv : pyStrLt
              (ys.foldl (fun a b => if pyStrLt a b then b else a) y) v with
          | false => rfl
          | true =>
            exfalso
            have hry := ihub y (List.mem_cons_self _ _)
            have := pyStrLt_trans _ _ _ hrv hxy
            rw [hry] at this
            cases this
        · exact ihub v hv2
      · rw [if_neg hxy] at ihub ⊢
        rcases List.mem_cons.mp hv with hveq | hv2
        · subst hveq
          exact ihub v (List.mem_cons_self _ _)
        · rcases List.mem_cons.mp hv2 with hveq | hv3
          · subst hveq
            by_cases hyx : pyStrLt v x = true
            · cases hrv : pyStrLt
                  (ys.foldl (fun a b => if pyStrLt a b then b else a) x) v with
              | false => rfl
              | true =>
                exfalso
                have htr := pyStrLt_trans _ _ _ hrv hyx
                have hrx := ihub x (List.mem_cons_self _ _)
                rw [hrx] at htr
                cases htr
            · have hxeqv : x = v := pyStrLt_total x v
                (by simpa using hxy) (by simpa using hyx)
              have hrx := ihub x (List.mem_cons_self _ _)
              rw [← hxeqv]
              exact hrx
          · exact ihub v (List.mem_cons_of_mem _ hv3)

theorem pyMax_spec (l : List String) (m : String) (h : pyMax l = .ok m) :
    m ∈ l ∧ ∀ v ∈ l, pyStrLt m v = false := by
  cases l with
  | nil => simp [pyMax] at h
  | cons x xs =>
    simp only [pyMax, Except.ok.injEq] at h
    subst h
    exact pyMaxFold_spec xs x

/-! ## Supporting lemmas: the resolve_conflicts loop -/

theorem resolve_conflicts_loop_spec (reg : Registry) :
    ∀ (conflicts : List String) (acc acc' : ResolveAcc),
      resolve_conflicts_loop reg conflicts acc = .ok acc' →
      ∃ outcomes : List (String × Option (String × String)),
        outcomes.map Prod.fst = conflicts ∧
        (∀ e ∈ outcomes, conflict_resolution reg e.1 = .ok e.2) ∧
        acc'.resolvedMsgs = acc.resolvedMsgs ++ resolvedMessagesOf outcomes ∧
        acc'.unresolvedMsgs = acc.unresolvedMsgs ++ unresolvedOf outcomes ∧
        acc'.resolved_dependencies = (outcomes.filterMap (fun e => e.2)).foldl
          (fun d pv => dictInsert d pv.1 pv.2) acc.resolved_dependencies := by
  intro conflicts
  induction conflicts with
  | nil =>
    intro acc acc' h
    simp only [resolve_conflicts_loop] at h
    cases h
    refine ⟨[], rfl, by simp, ?_, ?_, ?_⟩ <;>
      simp [resolvedMessagesOf, unresolvedOf]
  | cons conflict rest ih =>
    intro acc acc' h
    simp only [resolve_conflicts_loop] at h
    cases hp : parse_conflict_package conflict with
    | error e => rw [hp] at h; cases h
    | ok package =>
      rw [hp] at h
      dsimp only at h
      cases hv : parse_conflict_versions conflict with
      | error e => rw [hv] at h; cases h
      | ok versions =>
        rw [hv] at h
        dsimp only at h
        cases hc : find_compatible_version reg package versions with
        | error e => rw [hc] at h; cases h
        | ok cv =>
          rw [hc] at h
          dsimp only at h
          by_cases ht : pyTruthyOpt cv = true
          · rw [if_pos ht] at h
            obtain ⟨o, ho1, ho2, ho3, ho4, ho5⟩ := ih _ _ h
            refine ⟨(conflict, some (package, cv.getD "")) :: o,
              ?_, ?_, ?_, ?_, ?_⟩
            · simp [ho1]
            · intro e he
              rcases List.mem_cons.mp he with hee | he2
              · subst hee
                simp [conflict_resolution, hp, hv, hc, ht]
              · exact ho2 e he2
            · rw [ho3]
              simp [resolvedMessagesOf]
            · rw [ho4]
              simp [unresolvedOf]
            · rw [ho5]
              simp
          · rw [if_neg ht] at h
            obtain ⟨o, ho1, ho2, ho3, ho4, ho5⟩ := ih _ _ h
            refine ⟨(conflict, none) :: o, ?_, ?_, ?_, ?_, ?_⟩
            · simp [ho1]
            · intro e he
              rcases List.mem_cons.mp he with hee | he2
              · subst hee
                simp [conflict_resolution, hp, hv, hc, ht]
              · exact ho2 e he2
            · rw [ho3]
              simp [resolvedMessagesOf]
            · rw [ho4]
              simp [unresolvedOf]
            · rw [ho5]
              simp

/-! ## Claim theorems -/

theorem build_dependency_tree_inv (reg : Registry)
    (deps : List (String × String)) (st : BuildSt)
    (h : build_dependency_tree reg deps = .ok st) : buildInv st :=
  buildRun_ok_inv reg _ _ _ _ h
    ⟨List.nodup_nil, rfl, List.nodup_nil,
     fun p l hl => by simp [dictGet] at hl⟩

/-- C1: the spec says the builder records every distinct specifier
encountered for a name across all call sites.  The code does not: on the
dual specifier registry, package c is reached by a with caret one (first
visit, recorded) and by b with caret two, but the visited check returns
before any recording, so the tree maps c to the single specifier caret
one and the caret two encounter of b's metadata is dropped. -/
theorem dual_specifier_second_encounter_dropped :
    get_package_info dualSpecifierReg "b" "^1.0.0" =
      .ok (exInfo "1.0.0" [("c", "^2.0.0")] none) ∧
    build_dependency_tree dualSpecifierReg dualSpecifierManifest =
      .ok ⟨[("a", ["^1.0.0"]), ("c", ["^1.0.0"]), ("b", ["^1.0.0"])],
           ["a", "c", "b"], ["a", "c", "b"]⟩ ∧
    dictGet [("a", ["^1.0.0"]), ("c", ["^1.0.0"]), ("b", ["^1.0.0"])] "c" =
      some ["^1.0.0"] ∧
    "^2.0.0" ∉ (["^1.0.0"] : List String) :=
  ⟨rfl, rfl, rfl, by decide⟩

/-- C2: the visited-set early return precedes specifier recording, so on
every successful build every specifier list in the dependency tree has
length exactly one, and consequently find_conflicts and check_conflicts
return the empty list whenever they return at all. -/
theorem specifier_lists_singleton_conflicts_empty :
    ∀ (reg : Registry) (deps : List (String × String)),
      (∀ st, build_dependency_tree reg deps = .ok st →
        ∀ p l, dictGet st.tree p = some l → l.length = 1) ∧
      (∀ l, find_conflicts reg deps = .ok l → l = []) ∧
      (∀ l, check_conflicts reg deps = .ok l → l = []) := by
  intro reg deps
  have hfind : ∀ l, find_conflicts reg deps = .ok l → l = [] := by
    intro l h
    unfold find_conflicts at h
    cases hb : build_dependency_tree reg deps with
    | error e => rw [hb] at h; cases h
    | ok st =>
      rw [hb] at h
      dsimp only at h
      cases h
      obtain ⟨-, -, hkeys, hget⟩ := build_dependency_tree_inv reg deps st hb
      rw [detect_conflicts_eq]
      rw [List.map_eq_nil_iff]
      rw [List.filter_eq_nil_iff]
      intro e he
      have := (hget e.1 e.2 (dictGet_of_mem_nodup st.tree e.1 e.2 hkeys
        (by cases e; exact he))).1
      simp [this]
  refine ⟨?_, hfind, hfind⟩
  intro st h p l hl
  exact ((build_dependency_tree_inv reg deps st h).2.2.2 p l hl).1

/-- C3: the conflict detector emits, in the iteration order of the tree
keys, exactly the entries whose specifier list has more than one element;
an entry with at most one specifier contributes nothing wherever it sits
in the tree. -/
theorem detect_conflicts_characterization :
    (∀ tree : List (String × List String),
      detect_conflicts tree =
        (tree.filter (fun e => decide (e.2.length > 1))).map
          (fun e => conflict_message e.1 e.2)) ∧
    (∀ (t1 t2 : List (String × List String)) (p : String) (vs : List String),
      vs.length ≤ 1 →
        detect_conflicts (t1 ++ (p, vs) :: t2) =
          detect_conflicts (t1 ++ t2)) := by
  constructor
  · exact detect_conflicts_eq
  · intro t1 t2 p vs hlen
    rw [detect_conflicts_eq, detect_conflicts_eq]
    rw [List.filter_append, List.filter_append, List.filter_cons]
    have : ¬ vs.length > 1 := by omega
    simp [this]

/-- C4: a catalog version survives the candidate filter of
find_compatible_version exactly when it satisfies every specifier of the
conflict (intersection), and on the spec's two examples the resolver
picks 1.2.0 for caret one against caret one-two, and reports no
compatible version for caret one against caret two. -/
theorem compatible_version_intersection :
    (∀ (catalog ranges : List String) (v : String),
      v ∈ compatible_versions_of catalog ranges ↔
        v ∈ catalog ∧ ranges.all (fun r => satisfies_one v r) = true) ∧
    find_compatible_version catalogReg "p" ["^1.0.0", "^1.2.0"] =
      .ok (some "1.2.0") ∧
    find_compatible_version catalogReg "q" ["^1.0.0", "^2.0.0"] = .ok none := by
  refine ⟨?_, rfl, rfl⟩
  intro catalog ranges v
  rw [compatible_versions_of_eq]
  simp [List.mem_filter]

/-- C5 counterexample: the claim locates lock entries at packages/a and
packages/a/packages/b, but the generated lock for the nested manifest
keys its entries under node_modules paths; neither claimed key is
present. -/
theorem lock_paths_packages_counterexample :
    create_package_lock nestedLockReg nestedLockManifest =
      .ok nestedLockExpected ∧
    dictGet nestedLockExpected.packages "packages/a" = none ∧
    dictGet nestedLockExpected.packages "packages/a/packages/b" = none :=
  ⟨rfl, rfl, rfl⟩

/-- C5 amended: install paths have the form parent path, node_modules,
name; for the nested manifest the lock's path-keyed packages dict holds
the root entry under the empty path plus exactly the two entries
node_modules/a and node_modules/a/node_modules/b, each with a concrete
version and a non-empty integrity digest. -/
theorem lock_paths_node_modules :
    create_package_lock nestedLockReg nestedLockManifest =
      .ok nestedLockExpected ∧
    nestedLockExpected.packages.map Prod.fst =
      ["", "node_modules/a", "node_modules/a/node_modules/b"] ∧
    dictGet nestedLockExpected.packages "node_modules/a" =
      some (.pkg "1.0.0" "tar-1.0.0" "sha-1.0.0" [("b", "^1.0.0")]) ∧
    dictGet nestedLockExpected.packages "node_modules/a/node_modules/b" =
      some (.pkg "1.1.0" "tar-1.1.0" "sha-1.1.0" []) ∧
    ("sha-1.0.0" : String) ≠ "" ∧ ("sha-1.1.0" : String) ≠ "" :=
  ⟨rfl, rfl, rfl, rfl, by decide, by decide⟩

/-- C6: with the fuel budget chosen from the registry size the traversal
never exhausts fuel (the RecursionError marker is unreachable), so
build_dependency_tree terminates on every manifest, cyclic registries
included; on success the fetch log has no duplicates and coincides with
the visited set, so each visited package name is fetched exactly once.
The cyclic registry where a and b require each other builds in one fetch
of each. -/
theorem build_tree_terminates_fetches_once :
    ∀ (reg : Registry) (deps : List (String × String)),
      (build_dependency_tree reg deps ≠ .error .recursionError) ∧
      (∀ st, build_dependency_tree reg deps = .ok st →
        st.fetchLog.Nodup ∧ st.fetchLog = st.visited) ∧
      build_dependency_tree cycleReg cycleManifest =
        .ok ⟨[("a", ["^1.0.0"]), ("b", ["^1.0.0"])],
             ["a", "b"], ["a", "b"]⟩ := by
  intro reg deps
  refine ⟨build_dependency_tree_enough_fuel reg deps, ?_, rfl⟩
  intro st h
  have hinv := build_dependency_tree_inv reg deps st h
  exact ⟨by rw [hinv.2.1]; exact hinv.1, hinv.2.1⟩

/-- C7: failure policies are asymmetric.  A metadata fetch failure during
tree building propagates out of build_dependency_tree unchanged, while a
fetch failure during lock generation only appends an error line to the
log, leaves the lock untouched for that subtree, and lets the loop
continue with the siblings; consequently create_package_lock returns a
lock whenever the resolution check succeeded.  The asymmetric registry,
whose package c resolves during tree building but fails the re-fetch
with the latest marker during lock generation, exhibits both policies on
one input. -/
theorem failure_policy_asymmetry :
    (∀ (reg : Registry) (p vr : String) (rest : List (String × String))
       (e : PyErr), get_package_info reg p vr = .error e →
         build_dependency_tree reg ((p, vr) :: rest) = .error e) ∧
    (∀ (reg : Registry) (fuel : Nat) (p v pp : String) (st : LockData)
       (e : PyErr), get_package_info reg p v = .error e →
         lockRun reg (fuel + 1) (.one p v pp) st =
           { st with errorLog := st.errorLog
               ++ [lock_error_message p v (pyErrMessage e)] }) ∧
    (∀ (reg : Registry) (fuel : Nat) (p v pp : String)
       (rest : List (String × String)) (st : LockData) (e : PyErr),
       get_package_info reg p v = .error e →
         lockRun reg (fuel + 2) (.deps ((p, v) :: rest) pp) st =
           lockRun reg (fuel + 1) (.deps rest pp)
             { st with errorLog := st.errorLog
                 ++ [lock_error_message p v (pyErrMessage e)] }) ∧
    (∀ (reg : Registry) (deps : List (String × String))
       (res : Bool × List String × List (String × String)),
       check_and_resolve_conflicts reg deps = .ok res → res.1 = true →
         ∃ lock, create_package_lock reg deps = .ok lock) ∧
    (∃ lock, create_package_lock asymmetricReg asymmetricManifest =
        .ok lock ∧
      dictGet lock.packages "node_modules/b" ≠ none ∧
      dictGet lock.packages "node_modules/a/node_modules/c" ≠ none ∧
      lock.errorLog =
        ["Error processing dependency c@latest: \x27latest\x27"]) := by
  refine ⟨?_, ?_, ?_, ?_, ?_⟩
  · intro reg p vr rest e hg
    unfold build_dependency_tree
    have heq : buildFuel reg ((p, vr) :: rest) =
        (rest.length + regPotential reg []) + 1 + 1 := by
      simp only [buildFuel, List.length_cons]
      omega
    rw [heq]
    simp only [buildRun]
    rw [hg]
    simp [dictGet]
  · intro reg fuel p v pp st e hg
    simp only [lockRun]
    rw [hg]
  · intro reg fuel p v pp rest st e hg
    simp only [lockRun]
    rw [hg]
  · intro reg deps res hr htrue
    unfold create_package_lock
    rw [hr]
    obtain ⟨b, m, d⟩ := res
    simp only at htrue
    subst htrue
    exact ⟨_, rfl⟩
  · refine ⟨_, rfl, ?_, ?_, ?_⟩ <;> decide

/-- C8: resolve_conflicts aggregates per-conflict outcomes: allResolved
is emptiness of the unresolved list, the message list is all resolved
descriptions in input order followed by all unresolved conflicts in
input order, and the resolved dict holds exactly the successfully
resolved packages with their chosen versions. -/
theorem resolve_conflicts_aggregation :
    ∀ (reg : Registry) (conflicts : List String)
      (res : Bool × List String × List (String × String)),
      resolve_conflicts reg conflicts = .ok res →
      ∃ outcomes : List (String × Option (String × String)),
        outcomes.map Prod.fst = conflicts ∧
        (∀ e ∈ outcomes, conflict_resolution reg e.1 = .ok e.2) ∧
        res = ((unresolvedOf outcomes).isEmpty,
               resolvedMessagesOf outcomes ++ unresolvedOf outcomes,
               resolvedDictOf outcomes) ∧
        (res.1 = true ↔ unresolvedOf outcomes = []) := by
  intro reg conflicts res h
  unfold resolve_conflicts at h
  cases hl : resolve_conflicts_loop reg conflicts ⟨[], [], []⟩ with
  | error e => rw [hl] at h; cases h
  | ok acc =>
    rw [hl] at h
    dsimp only at h
    obtain ⟨o, ho1, ho2, ho3, ho4, ho5⟩ :=
      resolve_conflicts_loop_spec reg conflicts _ _ hl
    simp only at ho3 ho4 ho5
    cases h
    refine ⟨o, ho1, ho2, ?_, ?_⟩
    · rw [show resolvedDictOf o = (o.filterMap (fun e => e.2)).foldl
          (fun d pv => dictInsert d pv.1 pv.2) [] from rfl]
      rw [← ho5, ho3, ho4]
      simp
    · rw [ho4]
      simp [List.isEmpty_iff]

/-- C8 witness: the aggregation theorem instantiated on the two example
conflicts, of which p resolves to 1.2.0 and q stays unresolved. -/
theorem resolve_conflicts_aggregation_witness :
    ∃ outcomes : List (String × Option (String × String)),
      outcomes.map Prod.fst = exampleConflicts ∧
      (∀ e ∈ outcomes, conflict_resolution catalogReg e.1 = .ok e.2) ∧
      ((false,
        ["Resolved conflict for \x27p\x27: using version 1.2.0",
         "Package \x27q\x27 has conflicting version requirements: ^1.0.0, ^2.0.0"],
        [("p", "1.2.0")]) :
          Bool × List String × List (String × String)) =
        ((unresolvedOf outcomes).isEmpty,
         resolvedMessagesOf outcomes ++ unresolvedOf outcomes,
         resolvedDictOf outcomes) ∧
      (((false,
         ["Resolved conflict for \x27p\x27: using version 1.2.0",
          "Package \x27q\x27 has conflicting version requirements: ^1.0.0, ^2.0.0"],
         [("p", "1.2.0")]) :
           Bool × List String × List (String × String)).1 = true ↔
        unresolvedOf outcomes = []) :=
  resolve_conflicts_aggregation catalogReg exampleConflicts _ rfl

/-- C9: when the detector reports no conflicts, check_and_resolve
short-circuits to the triple of true, the single no-conflict message and
the unchanged manifest; on the empty manifest it does so for every
registry. -/
theorem check_and_resolve_no_conflicts_short_circuit :
    (∀ (reg : Registry) (deps : List (String × String)),
      check_conflicts reg deps = .ok [] →
        check_and_resolve_conflicts reg deps =
          .ok (true, ["No conflicts detected."], deps)) ∧
    (∀ reg : Registry, check_and_resolve_conflicts reg [] =
      .ok (true, ["No conflicts detected."], [])) := by
  constructor
  · intro reg deps h
    unfold check_and_resolve_conflicts
    rw [h]
    simp
  · intro reg
    have hbuild : build_dependency_tree reg [] = .ok ⟨[], [], []⟩ := by
      unfold build_dependency_tree
      have heq : buildFuel reg [] = regPotential reg [] + 1 := by
        simp [buildFuel]
        omega
      rw [heq]
      simp only [buildRun]
    have hfind : check_conflicts reg [] = .ok [] := by
      unfold check_conflicts find_conflicts
      rw [hbuild]
      rfl
    unfold check_and_resolve_conflicts
    rw [hfind]
    simp

/-- C10 counterexample: the claim says the wildcard ranges return the
maximum known version, but the code takes Python max over the version
strings, which is lexicographic: on the catalog of 9.0.0 and 10.0.0 it
returns 9.0.0 although 10.0.0 is the greater version. -/
theorem wildcard_lexicographic_counterexample :
    find_max_satisfying ["9.0.0", "10.0.0"] "*" = .ok (some "9.0.0") ∧
    parseVersion "9.0.0" = some (9, 0, 0) ∧
    parseVersion "10.0.0" = some (10, 0, 0) ∧
    versionLtB (9, 0, 0) (10, 0, 0) = true :=
  ⟨rfl, rfl, rfl, rfl⟩

/-- C10 amended: for every non-empty version list, each of the literal
ranges star, x and latest bypasses range parsing and returns the
greatest version string in Python string order (lexicographic by code
point), an element of the list no other element exceeds in that order. -/
theorem wildcard_picks_python_string_max :
    ∀ (versions : List String) (range_ : String),
      versions ≠ [] →
      (range_ = "*" ∨ range_ = "x" ∨ range_ = "latest") →
      ∃ m, find_max_satisfying versions range_ = .ok (some m) ∧
        m ∈ versions ∧ ∀ v ∈ versions, pyStrLt m v = false := by
  intro versions r hne hr
  have hl : parse_version_range r = "latest" := by
    rcases hr with rfl | rfl | rfl <;> simp [parse_version_range]
  cases versions with
  | nil => exact absurd rfl hne
  | cons x xs =>
    obtain ⟨hm, hub⟩ := pyMaxFold_spec xs x
    refine ⟨_, ?_, hm, hub⟩
    simp [find_max_satisfying, hl, pyMax]

/-- C10 witness: the amended statement on the concrete list of 1.0.0 and
2.0.0 with the star range. -/
theorem wildcard_picks_python_string_max_witness :
    ∃ m, find_max_satisfying ["1.0.0", "2.0.0"] "*" = .ok (some m) ∧
      m ∈ ["1.0.0", "2.0.0"] ∧
      ∀ v ∈ ["1.0.0", "2.0.0"], pyStrLt m v = false :=
  wildcard_picks_python_string_max ["1.0.0", "2.0.0"] "*" (by decide)
    (Or.inl rfl)
